import Mathlib

/-!
Verification of the rattomail local mail-delivery agent (src/src/lib.rs)
against its design document.

Byte streams are modelled as lists of byte values (`List Nat`); a line is
the byte sequence up to and including a newline, exactly what one
`BufRead::read_until(b'\n')` call of the source yields.  String literals
enter the model through `bytes`, the ASCII code points of the literal.
-/

/-- Newline byte, the delimiter of `read_until(b'\n')` in the source. -/
def nl : Nat := 10

/-- Carriage-return byte, part of the end-of-headers test `buffer == b"\r\n"`. -/
def cr : Nat := 13

/-- Byte values of a string literal (the source works on byte buffers). -/
def bytes (s : String) : List Nat := s.toList.map Char.toNat

/-- Split a byte stream into lines exactly as repeated `read_until(b'\n')`
calls do: each line carries its terminating newline byte; a final line at
end-of-stream may lack one. -/
def linesOf : List Nat → List (List Nat)
  | [] => []
  | b :: s =>
    if b = nl then [nl] :: linesOf s
    else
      match linesOf s with
      | [] => [[b]]
      | l :: ls => (b :: l) :: ls

/-- Header-scan record of `process_existing_headers` (src/src/lib.rs:355):
which of the two inspected header prefixes have been seen. -/
structure HeaderStatus where
  has_from : Bool
  has_date : Bool
  deriving DecidableEq, Repr

/-- Byte literal `b"From: "` tested by `buffer.starts_with` in the source. -/
def fromPfx : List Nat := bytes "From: "

/-- Byte literal `b"Date: "` tested by `buffer.starts_with` in the source. -/
def datePfx : List Nat := bytes "Date: "

/-- Byte literal `b"Received: "`, the trace-header name.  The source never
matches on it; it is used here only to state properties about trace
headers in outputs. -/
def recvPfx : List Nat := bytes "Received: "

/-- Loop of `process_existing_headers` (src/src/lib.rs:400-426), one
iteration per line read by `read_until(b'\n')`: record a `From: ` or
`Date: ` prefix, stop (copying nothing) at the first blank line
(`b"\n"` or `b"\r\n"`), stop at end of stream, and copy every other line
verbatim to the output.  Returns the bytes written, the header status,
and the lines left unread. -/
def scanHeaders : List (List Nat) → HeaderStatus → List Nat × HeaderStatus × List (List Nat)
  | [], st => ([], st, [])
  | line :: rest, st =>
    if fromPfx.isPrefixOf line then
      let r := scanHeaders rest { st with has_from := true }
      (line ++ r.1, r.2)
    else if datePfx.isPrefixOf line then
      let r := scanHeaders rest { st with has_date := true }
      (line ++ r.1, r.2)
    else if line = [nl] ∨ line = [cr, nl] then
      ([], st, rest)
    else
      let r := scanHeaders rest st
      (line ++ r.1, r.2)

/-- Model of `process_existing_headers` (src/src/lib.rs:388-434): scan the
input line by line, copy each header line verbatim to the output, record
`From: ` and `Date: ` prefixes, and stop at the first blank line (which is
not copied) or at end of stream.  The third component is the unread
remainder of the input (the message body). -/
def process_existing_headers (inp : List Nat) : List Nat × HeaderStatus × List Nat :=
  let r := scanHeaders (linesOf inp) { has_from := false, has_date := false }
  (r.1, r.2.1, r.2.2.flatten)

/-- Model of `make_received_header` (src/src/lib.rs:437-447).  `time` stands
for the RFC-2822 rendering `received_time.to_rfc2822()` of the invocation's
clock instant: the source turns the one `DateTime` into a string with that
one call, so a single byte string is the faithful image here. -/
def make_received_header (to_addr from_addr time : List Nat) : List Nat :=
  bytes "Received: for " ++ to_addr ++ bytes " with local (rattomail) (envelope-from "
    ++ from_addr ++ bytes "); " ++ time ++ [nl]

/-- Date header synthesized by `write_headers` when the input had none:
`format!("Date: {}\n", date_str)` with `date_str = received_time.to_rfc2822()`,
the same rendering that `make_received_header` uses. -/
def mkDateHeader (time : List Nat) : List Nat := bytes "Date: " ++ time ++ [nl]

/-- Originator header synthesized by `write_headers` when the input had
none: `format!("From: {}\n", from_addr)`. -/
def mkFromHeader (from_addr : List Nat) : List Nat := bytes "From: " ++ from_addr ++ [nl]

/-- Model of `write_headers` (src/src/lib.rs:461-495): write the fresh
`Received:` header, copy the input's header lines, append a `Date:` header
if none was seen, then a `From: ` header if none was seen, then the blank
line that ends the header block.  The second component is the unread
remainder of the input (the body), handed on to `write_body`. -/
def write_headers (inp to_addr from_addr time : List Nat) : List Nat × List Nat :=
  let r := process_existing_headers inp
  let dateOut := if r.2.1.has_date = false then mkDateHeader time else []
  let fromOut := if r.2.1.has_from = false then mkFromHeader from_addr else []
  (make_received_header to_addr from_addr time ++ r.1 ++ dateOut ++ fromOut ++ [nl], r.2.2)

/-- Model of `write_body` (src/src/lib.rs:498-525): read lines until end of
stream and write each verbatim — the output is the input, line by line. -/
def write_body (inp : List Nat) : List Nat := (linesOf inp).flatten

/-- Model of `write_message` (src/src/lib.rs:531-544): headers, then body. -/
def write_message (inp to_addr from_addr time : List Nat) : List Nat :=
  let r := write_headers inp to_addr from_addr time
  r.1 ++ write_body r.2

/-- Header lines of an input stream: the lines scanned (and copied) by
`process_existing_headers` before the first blank line or end of stream. -/
def nonBlank (l : List Nat) : Bool := !(l == [nl] || l == [cr, nl])

/-- Lines of the input's header block, in order, as copied by the scan. -/
def hdrLines (inp : List Nat) : List (List Nat) := (linesOf inp).takeWhile nonBlank

/-- Component of a filesystem path, following `std::path::Component` on
unix: the root, the current-directory marker, the parent-directory marker,
or a normal name. -/
inductive Component
  | rootDir
  | curDir
  | parentDir
  | normal (s : String)
  deriving DecidableEq, Repr

/-- Display of a component, following `Component::as_os_str`. -/
def componentAsStr : Component → String
  | .rootDir => "/"
  | .curDir => "."
  | .parentDir => ".."
  | .normal s => s

/-- Single path segment to a component, following the normalization of
`Path::components`: empty segments and `.` segments vanish (a leading `.`
is handled separately by `parsePath`), `..` is the parent marker. -/
def segToComponent (s : String) : Option Component :=
  if s = "" then none
  else if s = "." then none
  else if s = ".." then some .parentDir
  else some (.normal s)

/-- Split a character list at every `/`, keeping empty segments, as
`p.split('/')` would: the accumulator holds the current segment reversed. -/
def splitSegsAux : List Char → List Char → List (List Char)
  | [], acc => [acc.reverse]
  | c :: cs, acc =>
    if c = '/' then acc.reverse :: splitSegsAux cs [] else splitSegsAux cs (c :: acc)

/-- Segments of a path string between `/` separators. -/
def pathSegs (p : String) : List String := (splitSegsAux p.toList []).map List.asString

/-- Unix `Path::is_absolute` (= `has_root`): the path begins with `/`. -/
def isAbsolutePath (p : String) : Bool :=
  match p.toList with
  | c :: _ => c = '/'
  | [] => false

/-- Parse a path string into its components as `Path::components` yields
them on unix: a root component when the path starts with `/`, a leading
current-directory component when a relative path starts with `.`, then one
component per remaining non-empty segment. -/
def parsePath (p : String) : List Component :=
  let segs := pathSegs p
  let pre : List Component :=
    if isAbsolutePath p then [.rootDir]
    else
      match segs with
      | s :: _ => if s = "." then [.curDir] else []
      | [] => []
  pre ++ segs.filterMap segToComponent

/-- Failure cases of `parse_maildir_new_path` (src/src/lib.rs:553-592).
The source reports each as a distinct `anyhow::bail!` message; the
constructors name those messages: `pathNotAbsolute` is "is not an absolute
path", `missingNewComponent` is "does not end in 'new'",
`missingMailboxMarker` is "does not have 'Maildir' as the second-to-last
component", and `malformedShape` is the catch-all "does not end in
/Maildir/new" raised when the path has fewer than two components. -/
inductive MaildirPathError
  | pathNotAbsolute
  | missingNewComponent
  | missingMailboxMarker
  | malformedShape
  deriving DecidableEq, Repr

/-- Model of `parse_maildir_new_path` (src/src/lib.rs:553-592): the path
must be absolute; matching the component slice `[.., second_to_last, last]`,
`last` must be literally `new` and `second_to_last` literally `Maildir`;
on success the parent path (all components but the last) is returned. -/
def parse_maildir_new_path (p : String) : Except MaildirPathError (List Component) :=
  if isAbsolutePath p = false then .error .pathNotAbsolute
  else
    let components := parsePath p
    match components.reverse with
    | last :: second_to_last :: _ =>
      if componentAsStr last ≠ "new" then .error .missingNewComponent
      else if componentAsStr second_to_last ≠ "Maildir" then .error .missingMailboxMarker
      else .ok components.dropLast
    | _ => .error .malformedShape

/-- Model of `char::is_ascii_graphic`: code point between `!` (0x21) and
`~` (0x7E) inclusive. -/
def isAsciiGraphic (c : Char) : Bool := decide (0x21 ≤ c.toNat ∧ c.toNat ≤ 0x7E)

/-- Model of `is_plausible_string` (src/src/lib.rs:624-626): non-empty
(`!s.is_empty()`, here stated on the character list), and every character
ASCII-graphic (`s.chars().all(|c| c.is_ascii_graphic())`). -/
def is_plausible_string (s : String) : Bool :=
  !s.toList.isEmpty && s.toList.all isAsciiGraphic

/-- ASCII-whitespace character, following `char::is_ascii_whitespace`:
space, horizontal tab, line feed, form feed, carriage return. -/
def isAsciiWhitespaceChar (c : Char) : Prop :=
  c.toNat = 32 ∨ c.toNat = 9 ∨ c.toNat = 10 ∨ c.toNat = 12 ∨ c.toNat = 13

/-- ASCII-control character: code points below 0x20, and 0x7F (delete). -/
def isAsciiControlChar (c : Char) : Prop := c.toNat < 32 ∨ c.toNat = 127

/-- Modelled from the spec: a character admitted by the glossary's wording
of a plausible address, "printable, non-whitespace, non-control ASCII"
(printable ASCII being the range 0x20 to 0x7E). -/
def specPlausibleChar (c : Char) : Prop :=
  c.toNat ≤ 127 ∧ (32 ≤ c.toNat ∧ c.toNat ≤ 126) ∧
    ¬ isAsciiWhitespaceChar c ∧ ¬ isAsciiControlChar c

instance (c : Char) : Decidable (isAsciiWhitespaceChar c) := by
  unfold isAsciiWhitespaceChar
  infer_instance

instance (c : Char) : Decidable (isAsciiControlChar c) := by
  unfold isAsciiControlChar
  infer_instance

instance (c : Char) : Decidable (specPlausibleChar c) := by
  unfold specPlausibleChar
  infer_instance

/-- Outcomes of `drop_privileges` (src/src/lib.rs:290-353).  Every non-`ok`
constructor is one of the function's `std::process::exit(1)` sites, in
source order: the refusal to drop to root, the three drop syscalls
failing, and — most severe — a verification probe unexpectedly
succeeding. -/
inductive DropOutcome
  | ok
  | exitCannotDropToSuperuser
  | exitSetgroupsFailed
  | exitGroupDropFailed
  | exitUserDropFailed
  | exitGidRegainSucceeded
  | exitUidRegainSucceeded
  deriving DecidableEq, Repr

/-- Identity-changing system calls issued by `drop_privileges`, recorded in
order.  A call appears in the trace exactly when the source would issue it. -/
inductive Syscall
  | setgroups (g : Nat)
  | setresgid (r e s : Nat)
  | setresuid (r e s : Nat)
  deriving DecidableEq, Repr

/-- Success or failure of each system call `drop_privileges` may issue,
supplied by the operating system.  `regainGidOk`/`regainUidOk` are the
results of the two verification probes that try to set the ids back. -/
structure OsOracle where
  setgroupsOk : Bool
  setresgidOk : Bool
  setresuidOk : Bool
  regainGidOk : Bool
  regainUidOk : Bool
  deriving DecidableEq, Repr

/-- Model of `drop_privileges` (src/src/lib.rs:290-353).  `oldUid`/`oldGid`
are the effective ids captured by `geteuid()`/`getegid()` at entry;
`newUid`/`newGid` the target user's ids; `0` is the superuser id
(`Uid::is_root`).  Steps in source order: refuse a root target before any
call is made; `setgroups`, `setresgid`, `setresuid` to the target, each
failure fatal; then, if the target gid differs from the old gid, probe
`setresgid` back to the old gid and abort if that unexpectedly succeeds;
then the same probe for the uid.  Returns the outcome and the ordered
trace of identity-changing calls issued. -/
def drop_privileges (oldUid oldGid newUid newGid : Nat) (os : OsOracle) :
    DropOutcome × List Syscall :=
  if newUid = 0 then (.exitCannotDropToSuperuser, [])
  else
    let t1 : List Syscall := [.setgroups newGid]
    if os.setgroupsOk = false then (.exitSetgroupsFailed, t1)
    else
      let t2 := t1 ++ [.setresgid newGid newGid newGid]
      if os.setresgidOk = false then (.exitGroupDropFailed, t2)
      else
        let t3 := t2 ++ [.setresuid newUid newUid newUid]
        if os.setresuidOk = false then (.exitUserDropFailed, t3)
        else
          let gidProbe := decide (newGid ≠ oldGid)
          let t4 := if gidProbe then t3 ++ [.setresgid oldGid oldGid oldGid] else t3
          if gidProbe && os.regainGidOk then (.exitGidRegainSucceeded, t4)
          else
            let uidProbe := decide (newUid ≠ oldUid)
            let t5 := if uidProbe then t4 ++ [.setresuid oldUid oldUid oldUid] else t4
            if uidProbe && os.regainUidOk then (.exitUidRegainSucceeded, t5)
            else (.ok, t5)

/-- Contents of a config file (`Config`, src/src/lib.rs:20-23). -/
structure Config where
  mailDir : String
  userName : String
  deriving DecidableEq, Repr

/-- Destination of the message (`MessageDestination`, src/src/lib.rs:45-48). -/
inductive MessageDestination
  | maildir
  | outputStream
  deriving DecidableEq, Repr

/-- Results of everything `main` (src/src/lib.rs:642-806) obtains from its
collaborators, in the order the source consults them: program-name
normalization, the parsed config file, the `User::from_name` lookup
(uid and gid of the target user; `none` covers both a lookup error and an
unknown user, which the source treats alike by exiting), the process's
pre-drop effective ids and the syscall results for the privilege drop, the
`-f` sender argument, the current operating user's name, the positional
recipient argument, and the maildir-creation and delivery results. -/
structure MainWorld where
  progNameValid : Bool
  config : Option Config
  userLookup : Option (Nat × Nat)
  shouldDropPrivs : Bool
  oldUid : Nat
  oldGid : Nat
  os : OsOracle
  senderArg : Option String
  currentUser : String
  toArg : Option String
  createMaildirs : Bool
  createDirsOk : Bool
  messageDestination : MessageDestination
  outputPresent : Bool
  deliverOk : Bool
  deriving DecidableEq, Repr

/-- Exit taken by `main`, one constructor per `std::process::exit` site (in
source order), or `delivered` when the pipeline runs to completion. -/
inductive MainOutcome
  | delivered
  | exitBadProgName
  | exitConfigError
  | exitRootUserName
  | exitUserLookupFailed
  | exitDropFailed (r : DropOutcome)
  | exitImplausibleFrom
  | exitImplausibleTo
  | exitPathError (e : MaildirPathError)
  | exitCreateDirsFailed
  | exitBadDestCombo
  | exitDeliveryFailed
  deriving DecidableEq, Repr

/-- Milestones of one `main` invocation, recorded in the order reached:
the completed privilege drop, the successful mailbox-path validation, the
created maildir directories, and the written message. -/
inductive MainEvent
  | droppedPrivileges
  | validatedPath
  | createdDirs
  | wroteMessage
  deriving DecidableEq, Repr

/-- Stages of `main` after the privilege-drop decision
(src/src/lib.rs:722-806): resolve and check the sender address, resolve
and check the recipient address, validate the mailbox path, create the
maildir directories if requested, then deliver to the active destination.
`ev` is the list of milestones already reached. -/
def mainRest (w : MainWorld) (config : Config) (ev : List MainEvent) :
    MainOutcome × List MainEvent :=
  let from_address := w.senderArg.getD w.currentUser
  if is_plausible_string from_address = false then (.exitImplausibleFrom, ev)
  else
    let to_address := w.toArg.getD config.userName
    if is_plausible_string to_address = false then (.exitImplausibleTo, ev)
    else
      match parse_maildir_new_path config.mailDir with
      | .error e => (.exitPathError e, ev)
      | .ok _maildir =>
        let ev := ev ++ [.validatedPath]
        if w.createMaildirs && !w.createDirsOk then (.exitCreateDirsFailed, ev)
        else
          let ev := if w.createMaildirs then ev ++ [.createdDirs] else ev
          match w.messageDestination, w.outputPresent with
          | .maildir, false =>
            if w.deliverOk then (.delivered, ev ++ [.wroteMessage]) else (.exitDeliveryFailed, ev)
          | .outputStream, true =>
            if w.deliverOk then (.delivered, ev ++ [.wroteMessage]) else (.exitDeliveryFailed, ev)
          | _, _ => (.exitBadDestCombo, ev)

/-- Model of `main` (src/src/lib.rs:642-806), stage by stage in source
order: check the program name; read the config; refuse the literal user
name `root`; look up the target user; drop privileges when asked to
(recording the milestone only when `drop_privileges` returns, i.e. the
process now holds the target identity); then the address checks, the
mailbox-path validation and delivery of `mainRest`.  Returns the exit
outcome and the ordered milestones reached. -/
def mainRun (w : MainWorld) : MainOutcome × List MainEvent :=
  if w.progNameValid = false then (.exitBadProgName, [])
  else
    match w.config with
    | none => (.exitConfigError, [])
    | some config =>
      if config.userName = "root" then (.exitRootUserName, [])
      else
        match w.userLookup with
        | none => (.exitUserLookupFailed, [])
        | some ug =>
          if w.shouldDropPrivs then
            let r := drop_privileges w.oldUid w.oldGid ug.1 ug.2 w.os
            if r.1 = DropOutcome.ok then mainRest w config [.droppedPrivileges]
            else (.exitDropFailed r.1, [])
          else mainRest w config []

/-- Concrete collaborator results for one `mainRun` exercise: the privilege
drop is enabled and every drop syscall succeeds (both regain probes fail,
as they should), but the configured mailbox path is relative, so path
validation fails. -/
def worldBadPath : MainWorld :=
  { progNameValid := true
    config := some { mailDir := "relative/Maildir/new", userName := "bob" }
    userLookup := some (1000, 1000)
    shouldDropPrivs := true
    oldUid := 0
    oldGid := 0
    os := { setgroupsOk := true, setresgidOk := true, setresuidOk := true,
            regainGidOk := false, regainUidOk := false }
    senderArg := some "u"
    currentUser := "u"
    toArg := some "bob"
    createMaildirs := true
    createDirsOk := true
    messageDestination := .maildir
    outputPresent := false
    deliverOk := true }

/-- The same collaborator results with a well-formed absolute mailbox path. -/
def worldGoodPath : MainWorld :=
  { worldBadPath with config := some { mailDir := "/home/u/Maildir/new", userName := "bob" } }

/-- Syscall results in which the drop succeeds but the group-regain probe
unexpectedly succeeds — the security violation the verification step must
turn into an abort. -/
def osRegainGid : OsOracle :=
  { setgroupsOk := true, setresgidOk := true, setresuidOk := true,
    regainGidOk := true, regainUidOk := false }

/-! Lemmas about the line splitter. -/

theorem linesOf_eq_nil {s : List Nat} : linesOf s = [] ↔ s = [] := by
  constructor
  · intro h
    cases s with
    | nil => rfl
    | cons b s =>
      simp only [linesOf] at h
      split at h
      · exact absurd h (by simp)
      · split at h <;> simp_all
  · intro h
    subst h
    rfl

theorem flatten_linesOf (s : List Nat) : (linesOf s).flatten = s := by
  induction s with
  | nil => rfl
  | cons b s ih =>
    simp only [linesOf]
    split
    · next hb => simp [hb, ih]
    · next hb =>
      rcases h : linesOf s with _ | ⟨l, ls⟩
      · have hs : s = [] := linesOf_eq_nil.mp h
        simp [hs]
      · rw [h] at ih
        simp only [List.flatten_cons] at ih ⊢
        simp [ih]

theorem ne_nil_of_mem_linesOf {s l : List Nat} (h : l ∈ linesOf s) : l ≠ [] := by
  induction s generalizing l with
  | nil => simp [linesOf] at h
  | cons b s ih =>
    simp only [linesOf] at h
    by_cases hb : b = nl
    · rw [if_pos hb] at h
      rcases List.mem_cons.mp h with rfl | h
      · simp
      · exact ih h
    · rw [if_neg hb] at h
      rcases hl : linesOf s with _ | ⟨x, xs⟩ <;> rw [hl] at h
      · rcases List.mem_cons.mp h with rfl | h
        · simp
        · simp at h
      · rcases List.mem_cons.mp h with rfl | h
        · simp
        · exact ih (by rw [hl]; exact List.mem_cons_of_mem _ h)

theorem nl_not_mem_dropLast_of_mem_linesOf {s l : List Nat} (h : l ∈ linesOf s) :
    nl ∉ l.dropLast := by
  induction s generalizing l with
  | nil => simp [linesOf] at h
  | cons b s ih =>
    simp only [linesOf] at h
    by_cases hb : b = nl
    · rw [if_pos hb] at h
      rcases List.mem_cons.mp h with rfl | h
      · simp
      · exact ih h
    · rw [if_neg hb] at h
      rcases hl : linesOf s with _ | ⟨x, xs⟩ <;> rw [hl] at h
      · rcases List.mem_cons.mp h with rfl | h
        · simp
        · simp at h
      · rcases List.mem_cons.mp h with rfl | h
        · have hx : nl ∉ x.dropLast := ih (by rw [hl]; exact List.mem_cons_self ..)
          cases x with
          | nil => simp
          | cons y ys =>
            simp only [List.dropLast_cons₂, List.mem_cons] at hx ⊢
            rintro (h1 | h2)
            · exact hb h1.symm
            · exact hx h2
        · exact ih (by rw [hl]; exact List.mem_cons_of_mem _ h)

theorem linesOf_line_append {l : List Nat} (r : List Nat) (h : nl ∉ l) :
    linesOf (l ++ nl :: r) = (l ++ [nl]) :: linesOf r := by
  induction l with
  | nil => simp [linesOf]
  | cons b l ih =>
    have hb : b ≠ nl := by
      intro e
      exact h (e ▸ List.mem_cons_self ..)
    have h' : nl ∉ l := fun m => h (List.mem_cons_of_mem _ m)
    simp only [List.cons_append, linesOf, if_neg hb, List.append_eq, ih h']

theorem linesOf_flatten_append (L : List (List Nat)) (r : List Nat)
    (h : ∀ l ∈ L, l ≠ [] ∧ nl ∉ l.dropLast ∧ l.getLast? = some nl) :
    linesOf (L.flatten ++ r) = L ++ linesOf r := by
  induction L with
  | nil => simp
  | cons l L ih =>
    obtain ⟨hne, hint, hlast⟩ := h l (List.mem_cons_self ..)
    have hl : l.dropLast ++ [nl] = l := List.dropLast_append_getLast? nl (by simp [hlast])
    have step : linesOf (l ++ (L.flatten ++ r)) = (l.dropLast ++ [nl]) :: linesOf (L.flatten ++ r) := by
      conv_lhs => rw [← hl]
      rw [List.append_assoc]
      exact linesOf_line_append _ hint
    calc linesOf ((l :: L).flatten ++ r) = linesOf (l ++ (L.flatten ++ r)) := by
          simp [List.flatten_cons, List.append_assoc]
      _ = (l.dropLast ++ [nl]) :: linesOf (L.flatten ++ r) := step
      _ = l :: (L ++ linesOf r) := by
          rw [hl, ih (fun x hx => h x (List.mem_cons_of_mem _ hx))]
      _ = (l :: L) ++ linesOf r := rfl

theorem linesOf_flatten (L : List (List Nat))
    (h : ∀ l ∈ L, l ≠ [] ∧ nl ∉ l.dropLast ∧ l.getLast? = some nl) :
    linesOf L.flatten = L := by
  have := linesOf_flatten_append L [] h
  simpa [linesOf] using this

/-! Lemmas about the header scan. -/

theorem nonBlank_of_fromPfx {l : List Nat} (h : fromPfx.isPrefixOf l = true) :
    nonBlank l = true := by
  have h1 : l ≠ [nl] := by rintro rfl; exact absurd h (by decide)
  have h2 : l ≠ [cr, nl] := by rintro rfl; exact absurd h (by decide)
  simp [nonBlank, h1, h2]

theorem nonBlank_of_datePfx {l : List Nat} (h : datePfx.isPrefixOf l = true) :
    nonBlank l = true := by
  have h1 : l ≠ [nl] := by rintro rfl; exact absurd h (by decide)
  have h2 : l ≠ [cr, nl] := by rintro rfl; exact absurd h (by decide)
  simp [nonBlank, h1, h2]

theorem not_fromPfx_of_datePfx {l : List Nat} (h : datePfx.isPrefixOf l = true) :
    fromPfx.isPrefixOf l = false := by
  cases l with
  | nil => exact absurd h (by decide)
  | cons b t =>
    have hb : b = 68 := by
      by_contra hc
      rw [show datePfx = 68 :: [97, 116, 101, 58, 32] from rfl] at h
      simp [List.isPrefixOf, Ne.symm hc] at h
    subst hb
    rw [show fromPfx = 70 :: [114, 111, 109, 58, 32] from rfl]
    simp [List.isPrefixOf]

theorem not_datePfx_of_fromPfx {l : List Nat} (h : fromPfx.isPrefixOf l = true) :
    datePfx.isPrefixOf l = false := by
  cases l with
  | nil => exact absurd h (by decide)
  | cons b t =>
    have hb : b = 70 := by
      by_contra hc
      rw [show fromPfx = 70 :: [114, 111, 109, 58, 32] from rfl] at h
      simp [List.isPrefixOf, Ne.symm hc] at h
    subst hb
    rw [show datePfx = 68 :: [97, 116, 101, 58, 32] from rfl]
    simp [List.isPrefixOf]

theorem scanHeaders_out (L : List (List Nat)) (st : HeaderStatus) :
    (scanHeaders L st).1 = (L.takeWhile nonBlank).flatten := by
  induction L generalizing st with
  | nil => rfl
  | cons line rest ih =>
    simp only [scanHeaders]
    split
    · next hf =>
      simp [List.takeWhile_cons, nonBlank_of_fromPfx hf, ih]
    · split
      · next hf hd =>
        simp [List.takeWhile_cons, nonBlank_of_datePfx hd, ih]
      · split
        · next hf hd hb =>
          have : nonBlank line = false := by
            simp only [nonBlank]
            rcases hb with rfl | rfl <;> simp
          simp [List.takeWhile_cons, this]
        · next hf hd hb =>
          have : nonBlank line = true := by
            simp only [nonBlank]
            push_neg at hb
            simp [hb.1, hb.2]
          simp [List.takeWhile_cons, this, ih]

theorem scanHeaders_from (L : List (List Nat)) (st : HeaderStatus) :
    (scanHeaders L st).2.1.has_from
      = (st.has_from || (L.takeWhile nonBlank).any fun l => fromPfx.isPrefixOf l) := by
  induction L generalizing st with
  | nil => simp [scanHeaders]
  | cons line rest ih =>
    simp only [scanHeaders]
    split
    · next hf =>
      simp [List.takeWhile_cons, nonBlank_of_fromPfx hf, hf, ih]
    · split
      · next hf hd =>
        simp only [Bool.not_eq_true] at hf
        simp [List.takeWhile_cons, nonBlank_of_datePfx hd, hf, ih]
      · split
        · next hf hd hb =>
          have : nonBlank line = false := by
            simp only [nonBlank]
            rcases hb with rfl | rfl <;> simp
          simp [List.takeWhile_cons, this]
        · next hf hd hb =>
          have hnb : nonBlank line = true := by
            simp only [nonBlank]
            push_neg at hb
            simp [hb.1, hb.2]
          simp only [Bool.not_eq_true] at hf
          simp [List.takeWhile_cons, hnb, hf, ih]

theorem scanHeaders_date (L : List (List Nat)) (st : HeaderStatus) :
    (scanHeaders L st).2.1.has_date
      = (st.has_date || (L.takeWhile nonBlank).any fun l => datePfx.isPrefixOf l) := by
  induction L generalizing st with
  | nil => simp [scanHeaders]
  | cons line rest ih =>
    simp only [scanHeaders]
    split
    · next hf =>
      simp [List.takeWhile_cons, nonBlank_of_fromPfx hf, not_datePfx_of_fromPfx hf, ih]
    · split
      · next hf hd =>
        simp [List.takeWhile_cons, nonBlank_of_datePfx hd, hd, ih]
      · split
        · next hf hd hb =>
          have : nonBlank line = false := by
            simp only [nonBlank]
            rcases hb with rfl | rfl <;> simp
          simp [List.takeWhile_cons, this]
        · next hf hd hb =>
          have hnb : nonBlank line = true := by
            simp only [nonBlank]
            push_neg at hb
            simp [hb.1, hb.2]
          simp only [Bool.not_eq_true] at hd
          simp [List.takeWhile_cons, hnb, hd, ih]

theorem scanHeaders_rest_nil (L : List (List Nat)) (st : HeaderStatus)
    (h : ∀ l ∈ L, nonBlank l = true) :
    (scanHeaders L st).2.2 = [] := by
  induction L generalizing st with
  | nil => rfl
  | cons line rest ih =>
    have hrest : ∀ l ∈ rest, nonBlank l = true := fun l hl => h l (List.mem_cons_of_mem _ hl)
    simp only [scanHeaders]
    split
    · exact ih _ hrest
    · split
      · exact ih _ hrest
      · split
        · next hf hd hb =>
          have := h line (List.mem_cons_self ..)
          simp only [nonBlank] at this
          rcases hb with rfl | rfl <;> simp at this
        · exact ih _ hrest

/-! Structure of the `write_headers` output. -/

theorem process_out (inp : List Nat) :
    (process_existing_headers inp).1 = (hdrLines inp).flatten := by
  simp [process_existing_headers, hdrLines, scanHeaders_out]

theorem process_has_from (inp : List Nat) :
    (process_existing_headers inp).2.1.has_from
      = (hdrLines inp).any fun l => fromPfx.isPrefixOf l := by
  simp [process_existing_headers, hdrLines, scanHeaders_from]

theorem process_has_date (inp : List Nat) :
    (process_existing_headers inp).2.1.has_date
      = (hdrLines inp).any fun l => datePfx.isPrefixOf l := by
  simp [process_existing_headers, hdrLines, scanHeaders_date]

theorem write_headers_out (inp to_addr from_addr time : List Nat) :
    (write_headers inp to_addr from_addr time).1 =
      make_received_header to_addr from_addr time ++ (hdrLines inp).flatten
        ++ (if (process_existing_headers inp).2.1.has_date = false then mkDateHeader time else [])
        ++ (if (process_existing_headers inp).2.1.has_from = false then mkFromHeader from_addr else [])
        ++ [nl] := by
  simp [write_headers, process_out]

theorem mem_hdrLines_props {inp l : List Nat} (h : l ∈ hdrLines inp) :
    l ≠ [] ∧ nl ∉ l.dropLast := by
  have hm : l ∈ linesOf inp := List.takeWhile_subset _ h
  exact ⟨ne_nil_of_mem_linesOf hm, nl_not_mem_dropLast_of_mem_linesOf hm⟩

theorem line_props_concat {x : List Nat} (hx : nl ∉ x) :
    x ++ [nl] ≠ [] ∧ nl ∉ (x ++ [nl]).dropLast ∧ (x ++ [nl]).getLast? = some nl := by
  refine ⟨by simp, ?_, by simp⟩
  rw [List.dropLast_concat]
  exact hx

theorem make_received_header_props {to_addr from_addr time : List Nat}
    (hto : nl ∉ to_addr) (hfrom : nl ∉ from_addr) (htime : nl ∉ time) :
    make_received_header to_addr from_addr time ≠ [] ∧
      nl ∉ (make_received_header to_addr from_addr time).dropLast ∧
      (make_received_header to_addr from_addr time).getLast? = some nl := by
  have hx : nl ∉ bytes "Received: for " ++ to_addr
      ++ bytes " with local (rattomail) (envelope-from " ++ from_addr ++ bytes "); " ++ time := by
    simp only [List.mem_append, not_or]
    exact ⟨⟨⟨⟨⟨by decide, hto⟩, by decide⟩, hfrom⟩, by decide⟩, htime⟩
  exact line_props_concat hx

theorem mkDateHeader_props {time : List Nat} (htime : nl ∉ time) :
    mkDateHeader time ≠ [] ∧ nl ∉ (mkDateHeader time).dropLast ∧
      (mkDateHeader time).getLast? = some nl := by
  have hx : nl ∉ bytes "Date: " ++ time := by
    simp only [List.mem_append, not_or]
    exact ⟨by decide, htime⟩
  have := line_props_concat hx
  simpa [mkDateHeader, List.append_assoc] using this

theorem mkFromHeader_props {from_addr : List Nat} (hfrom : nl ∉ from_addr) :
    mkFromHeader from_addr ≠ [] ∧ nl ∉ (mkFromHeader from_addr).dropLast ∧
      (mkFromHeader from_addr).getLast? = some nl := by
  have hx : nl ∉ bytes "From: " ++ from_addr := by
    simp only [List.mem_append, not_or]
    exact ⟨by decide, hfrom⟩
  have := line_props_concat hx
  simpa [mkFromHeader, List.append_assoc] using this

theorem linesOf_write_headers (inp to_addr from_addr time : List Nat)
    (hto : nl ∉ to_addr) (hfrom : nl ∉ from_addr) (htime : nl ∉ time)
    (hterm : ∀ l ∈ hdrLines inp, l.getLast? = some nl) :
    linesOf (write_headers inp to_addr from_addr time).1 =
      make_received_header to_addr from_addr time :: hdrLines inp
        ++ (if (process_existing_headers inp).2.1.has_date = false then [mkDateHeader time] else [])
        ++ (if (process_existing_headers inp).2.1.has_from = false then [mkFromHeader from_addr] else [])
        ++ [[nl]] := by
  rw [write_headers_out]
  have hflat :
      make_received_header to_addr from_addr time ++ (hdrLines inp).flatten
        ++ (if (process_existing_headers inp).2.1.has_date = false then mkDateHeader time else [])
        ++ (if (process_existing_headers inp).2.1.has_from = false then mkFromHeader from_addr else [])
        ++ [nl]
      = (make_received_header to_addr from_addr time :: hdrLines inp
          ++ (if (process_existing_headers inp).2.1.has_date = false then [mkDateHeader time] else [])
          ++ (if (process_existing_headers inp).2.1.has_from = false then [mkFromHeader from_addr] else [])
          ++ [[nl]]).flatten := by
    cases (process_existing_headers inp).2.1.has_date <;>
      cases (process_existing_headers inp).2.1.has_from <;>
        simp [List.flatten_append, List.append_assoc]
  rw [hflat]
  apply linesOf_flatten
  intro l hl
  simp only [List.cons_append, List.mem_cons, List.mem_append] at hl
  rcases hl with rfl | ((hl | hl) | hl) | hl
  · exact make_received_header_props hto hfrom htime
  · obtain ⟨h1, h2⟩ := mem_hdrLines_props hl
    exact ⟨h1, h2, hterm l hl⟩
  · split at hl
    · simp only [List.mem_singleton] at hl
      subst hl
      exact mkDateHeader_props htime
    · simp at hl
  · split at hl
    · simp only [List.mem_singleton] at hl
      subst hl
      exact mkFromHeader_props hfrom
    · simp at hl
  · rcases hl with rfl | hl
    · exact ⟨by simp, by simp, rfl⟩
    · simp at hl

/-! Claim theorems: header transformer. -/

/-- Claim C3, counterexample: for an input whose header block already holds
the line `Received: x`, the transformer's output contains two lines with
the trace-header prefix, not exactly one — the input's trace header is
copied through like any other header line, contradicting the claim's
"exactly one … even when the input's header block itself contains a line
that is a trace header". -/
theorem c3_counterexample :
    ((linesOf (write_headers (bytes "Received: x\n\nb") (bytes "bob") (bytes "u")
        (bytes "T")).1).countP fun l => recvPfx.isPrefixOf l) = 2 ∧
      ¬ ((linesOf (write_headers (bytes "Received: x\n\nb") (bytes "bob") (bytes "u")
        (bytes "T")).1).countP fun l => recvPfx.isPrefixOf l) = 1 := by
  constructor <;> decide

/-- Claim C3 (amended): the freshly generated trace header — built from the
invocation's recipient, sender and timestamp, never from the input — is
always the first line of the transformer's output, and whenever the
input's header block contains no trace-header line (its header lines being
newline-terminated, the addresses and timestamp newline-free), the output
header block contains exactly one trace-header line. -/
theorem c3_trace_header (inp to_addr from_addr time : List Nat)
    (hto : nl ∉ to_addr) (hfrom : nl ∉ from_addr) (htime : nl ∉ time)
    (hterm : ∀ l ∈ hdrLines inp, l.getLast? = some nl)
    (hnorecv : ∀ l ∈ hdrLines inp, recvPfx.isPrefixOf l = false) :
    (linesOf (write_headers inp to_addr from_addr time).1).head?
        = some (make_received_header to_addr from_addr time) ∧
      ((linesOf (write_headers inp to_addr from_addr time).1).countP
        fun l => recvPfx.isPrefixOf l) = 1 := by
  rw [linesOf_write_headers inp to_addr from_addr time hto hfrom htime hterm]
  constructor
  · rfl
  · have h1 : recvPfx.isPrefixOf (make_received_header to_addr from_addr time) = true := rfl
    have h2 : ((hdrLines inp).countP fun l => recvPfx.isPrefixOf l) = 0 :=
      List.countP_eq_zero.mpr (fun l hl => by simp [hnorecv l hl])
    have h3 : recvPfx.isPrefixOf (mkDateHeader time) = false := rfl
    have h4 : recvPfx.isPrefixOf (mkFromHeader from_addr) = false := rfl
    have h5 : recvPfx.isPrefixOf ([nl] : List Nat) = false := rfl
    cases hd : (process_existing_headers inp).2.1.has_date <;>
      cases hf : (process_existing_headers inp).2.1.has_from <;>
        simp [List.countP_append, List.countP_cons, h1, h2, h3, h4, h5]

/-- Claim C4, counterexample: on the spec's end-to-end scenario the code
also synthesizes a `Date:` header (the input has none), so the output is
not the claimed header block without one. -/
theorem c4_counterexample :
    write_message (bytes "From: a@x\n\nhello\n") (bytes "bob") (bytes "u") (bytes "T") =
        bytes "Received: for bob with local (rattomail) (envelope-from u); T\nFrom: a@x\nDate: T\n\nhello\n" ∧
      write_message (bytes "From: a@x\n\nhello\n") (bytes "bob") (bytes "u") (bytes "T") ≠
        bytes "Received: for bob with local (rattomail) (envelope-from u); T\nFrom: a@x\n\nhello\n" := by
  constructor <;> decide

/-- Claim C4 (amended): for the input `From: a@x\n\nhello\n`, recipient
`bob`, sender `u` and any timestamp rendering, the output is the trace
header, the copied originator line, a synthesized `Date:` header carrying
the same timestamp, the terminating blank line, and the body `hello\n`. -/
theorem c4_end_to_end (time : List Nat) :
    write_message (bytes "From: a@x\n\nhello\n") (bytes "bob") (bytes "u") time =
      make_received_header (bytes "bob") (bytes "u") time ++ bytes "From: a@x\n"
        ++ mkDateHeader time ++ [nl] ++ bytes "hello\n" := by
  have hp : process_existing_headers (bytes "From: a@x\n\nhello\n") =
      (bytes "From: a@x\n", { has_from := true, has_date := false }, bytes "hello\n") := by
    decide
  have hb : write_body (bytes "hello\n") = bytes "hello\n" := by decide
  simp [write_message, write_headers, hp, hb, List.append_assoc]

/-- Claim C5, counterexample: when the input's header block contains two
lines starting with `From: `, both are copied through, so the output
contains two such lines, not exactly one. -/
theorem c5_counterexample :
    ((linesOf (write_message (bytes "From: a\nFrom: b\n\nz") (bytes "bob") (bytes "u")
        (bytes "T"))).countP fun l => fromPfx.isPrefixOf l) = 2 ∧
      ¬ ((linesOf (write_message (bytes "From: a\nFrom: b\n\nz") (bytes "bob") (bytes "u")
        (bytes "T"))).countP fun l => fromPfx.isPrefixOf l) = 1 := by
  constructor <;> decide

/-- Claim C5 (amended): when the input's header block contains exactly one
line starting with `From: ` (its header lines newline-terminated, the
addresses and timestamp newline-free), the output header block contains
exactly one such line, and the `From: `-prefixed lines of the output are
exactly those of the input's header block — byte-identical copies. -/
theorem c5_from_header (inp to_addr from_addr time : List Nat)
    (hto : nl ∉ to_addr) (hfrom : nl ∉ from_addr) (htime : nl ∉ time)
    (hterm : ∀ l ∈ hdrLines inp, l.getLast? = some nl)
    (hone : ((hdrLines inp).countP fun l => fromPfx.isPrefixOf l) = 1) :
    ((linesOf (write_headers inp to_addr from_addr time).1).filter
        fun l => fromPfx.isPrefixOf l) = ((hdrLines inp).filter fun l => fromPfx.isPrefixOf l) ∧
      ((linesOf (write_headers inp to_addr from_addr time).1).countP
        fun l => fromPfx.isPrefixOf l) = 1 := by
  have hany : ((hdrLines inp).any fun l => fromPfx.isPrefixOf l) = true := by
    rw [List.any_eq_true]
    have hpos : 0 < (hdrLines inp).countP fun l => fromPfx.isPrefixOf l := by omega
    exact List.countP_pos_iff.mp hpos
  have hf : (process_existing_headers inp).2.1.has_from = true := by
    rw [process_has_from inp]
    exact hany
  rw [linesOf_write_headers inp to_addr from_addr time hto hfrom htime hterm]
  have h1 : fromPfx.isPrefixOf (make_received_header to_addr from_addr time) = false := rfl
  have h3 : fromPfx.isPrefixOf (mkDateHeader time) = false := rfl
  have h5 : fromPfx.isPrefixOf ([nl] : List Nat) = false := rfl
  cases hd : (process_existing_headers inp).2.1.has_date <;>
    simp [List.filter_append, List.countP_append, List.countP_cons, h1, h3, h5, hf, hone]

/-- Claim C9 (confirmed): `write_headers` receives one rendered clock
instant `time`; the trace header carries it, and — whenever the input had
no date header — the synthesized `Date:` header carries the very same
`time`, so the two rendered timestamps in the output are equal.  (In the
source, both strings come from `received_time.to_rfc2822()` applied to the
one `received_time` argument.) -/
theorem c9_single_clock (inp to_addr from_addr time : List Nat)
    (hnodate : (process_existing_headers inp).2.1.has_date = false) :
    (write_headers inp to_addr from_addr time).1 =
      make_received_header to_addr from_addr time ++ (process_existing_headers inp).1
        ++ mkDateHeader time
        ++ (if (process_existing_headers inp).2.1.has_from = false then mkFromHeader from_addr
            else [])
        ++ [nl] := by
  simp [write_headers, hnodate]

/-- Claim C10 (confirmed): when the input's header block ends at end of
stream (no blank line anywhere) with a final line that lacks a trailing
newline, the whole input is copied verbatim and the output is the literal
concatenation of the trace header, the input, the synthesized headers and
the terminating blank line — nothing, in particular no newline, is
inserted after the unterminated final line, and no body remains. -/
theorem c10_unterminated_final_line (inp to_addr from_addr time : List Nat)
    (hne : inp ≠ []) (hnb : ∀ l ∈ linesOf inp, nonBlank l = true)
    (hlast : inp.getLast? ≠ some nl) :
    (write_headers inp to_addr from_addr time).1 =
        make_received_header to_addr from_addr time ++ inp
          ++ (if (process_existing_headers inp).2.1.has_date = false then mkDateHeader time
              else [])
          ++ (if (process_existing_headers inp).2.1.has_from = false then mkFromHeader from_addr
              else [])
          ++ [nl] ∧
      (write_headers inp to_addr from_addr time).2 = [] := by
  constructor
  · rw [write_headers_out]
    have hcopy : (hdrLines inp).flatten = inp := by
      rw [hdrLines, List.takeWhile_eq_self_iff.mpr hnb, flatten_linesOf]
    rw [hcopy]
  · have h22 : (scanHeaders (linesOf inp) { has_from := false, has_date := false }).2.2 = [] :=
      scanHeaders_rest_nil _ _ hnb
    simp [write_headers, process_existing_headers, h22]

/-- Witness for the amended C3 theorem at a concrete input. -/
theorem c3_witness :
    (linesOf (write_headers (bytes "X: y\n") (bytes "bob") (bytes "u") (bytes "T")).1).head?
        = some (make_received_header (bytes "bob") (bytes "u") (bytes "T")) ∧
      ((linesOf (write_headers (bytes "X: y\n") (bytes "bob") (bytes "u") (bytes "T")).1).countP
        fun l => recvPfx.isPrefixOf l) = 1 :=
  c3_trace_header (bytes "X: y\n") (bytes "bob") (bytes "u") (bytes "T")
    (by decide) (by decide) (by decide) (by decide) (by decide)

/-- Witness for the amended C5 theorem at a concrete input. -/
theorem c5_witness :
    ((linesOf (write_headers (bytes "From: q\n\nb") (bytes "bob") (bytes "u") (bytes "T")).1).filter
        fun l => fromPfx.isPrefixOf l)
        = ((hdrLines (bytes "From: q\n\nb")).filter fun l => fromPfx.isPrefixOf l) ∧
      ((linesOf (write_headers (bytes "From: q\n\nb") (bytes "bob") (bytes "u") (bytes "T")).1).countP
        fun l => fromPfx.isPrefixOf l) = 1 :=
  c5_from_header (bytes "From: q\n\nb") (bytes "bob") (bytes "u") (bytes "T")
    (by decide) (by decide) (by decide) (by decide) (by decide)

/-- Witness for the C9 theorem at a concrete input with no date header. -/
theorem c9_witness :
    (write_headers (bytes "X: y\n\nb") (bytes "bob") (bytes "u") (bytes "T")).1 =
      make_received_header (bytes "bob") (bytes "u") (bytes "T")
        ++ (process_existing_headers (bytes "X: y\n\nb")).1
        ++ mkDateHeader (bytes "T")
        ++ (if (process_existing_headers (bytes "X: y\n\nb")).2.1.has_from = false
            then mkFromHeader (bytes "u") else [])
        ++ [nl] :=
  c9_single_clock (bytes "X: y\n\nb") (bytes "bob") (bytes "u") (bytes "T") (by decide)

/-- Witness for the C10 theorem at a concrete input whose final header line
has no trailing newline. -/
theorem c10_witness :
    (write_headers (bytes "Foo: x") (bytes "b") (bytes "u") (bytes "T")).1 =
        make_received_header (bytes "b") (bytes "u") (bytes "T") ++ bytes "Foo: x"
          ++ (if (process_existing_headers (bytes "Foo: x")).2.1.has_date = false
              then mkDateHeader (bytes "T") else [])
          ++ (if (process_existing_headers (bytes "Foo: x")).2.1.has_from = false
              then mkFromHeader (bytes "u") else [])
          ++ [nl] ∧
      (write_headers (bytes "Foo: x") (bytes "b") (bytes "u") (bytes "T")).2 = [] :=
  c10_unterminated_final_line (bytes "Foo: x") (bytes "b") (bytes "u") (bytes "T")
    (by decide) (by decide) (by decide)

/-! Claim theorems: path validation. -/

/-- Claim C7, counterexample: the absolute path `/` has a final component
(the root, whose display is `/`, not `new`), so the claim's decision order
predicts `MissingNewComponent`; the code instead takes the catch-all match
arm for paths with fewer than two components and fails with the generic
"does not end in /Maildir/new" error. -/
theorem c7_counterexample :
    parse_maildir_new_path "/" = .error .malformedShape ∧
      isAbsolutePath "/" = true ∧
      MaildirPathError.malformedShape ≠ MaildirPathError.missingNewComponent ∧
      MaildirPathError.malformedShape ≠ MaildirPathError.pathNotAbsolute ∧
      MaildirPathError.malformedShape ≠ MaildirPathError.missingMailboxMarker := by
  refine ⟨by rfl, by rfl, by decide, by decide, by decide⟩

/-- Claim C7 (amended): validation checks absoluteness first (else
`PathNotAbsolute`); for paths with at least two components it then checks,
in order, that the final component is literally `new` (else
`MissingNewComponent`) and that the second-to-last is literally `Maildir`
(else `MissingMailboxMarker`), returning the parent path on success; an
absolute path with fewer than two components fails with the distinct
generic shape error instead.  The four concrete examples behave as the
claim states. -/
theorem c7_path_validation :
    (∀ p : String, isAbsolutePath p = false →
        parse_maildir_new_path p = .error .pathNotAbsolute) ∧
      (∀ (p : String) (lastC stlC : Component) (rest : List Component),
        isAbsolutePath p = true → (parsePath p).reverse = lastC :: stlC :: rest →
          componentAsStr lastC ≠ "new" →
            parse_maildir_new_path p = .error .missingNewComponent) ∧
      (∀ (p : String) (lastC stlC : Component) (rest : List Component),
        isAbsolutePath p = true → (parsePath p).reverse = lastC :: stlC :: rest →
          componentAsStr lastC = "new" → componentAsStr stlC ≠ "Maildir" →
            parse_maildir_new_path p = .error .missingMailboxMarker) ∧
      (∀ (p : String) (lastC stlC : Component) (rest : List Component),
        isAbsolutePath p = true → (parsePath p).reverse = lastC :: stlC :: rest →
          componentAsStr lastC = "new" → componentAsStr stlC = "Maildir" →
            parse_maildir_new_path p = .ok (parsePath p).dropLast) ∧
      parse_maildir_new_path "/home/u/Maildir/new" = .ok (parsePath "/home/u/Maildir") ∧
      parse_maildir_new_path "/home/u/Maildir/old" = .error .missingNewComponent ∧
      parse_maildir_new_path "relative/Maildir/new" = .error .pathNotAbsolute ∧
      parse_maildir_new_path "/a/new" = .error .missingMailboxMarker := by
  refine ⟨?_, ?_, ?_, ?_, by rfl, by rfl, by rfl, by rfl⟩
  · intro p hp
    simp [parse_maildir_new_path, hp]
  · intro p lastC stlC rest hp hrev hne
    simp only [parse_maildir_new_path, hp]
    rw [hrev]
    simp [hne]
  · intro p lastC stlC rest hp hrev hnew hne
    simp only [parse_maildir_new_path, hp]
    rw [hrev]
    simp [hnew, hne]
  · intro p lastC stlC rest hp hrev hnew hmd
    simp only [parse_maildir_new_path, hp]
    rw [hrev]
    simp [hnew, hmd]

/-- Witness for the amended C7 theorem: its first clause applied to a
concrete relative path. -/
theorem c7_witness : parse_maildir_new_path "abc" = .error .pathNotAbsolute :=
  c7_path_validation.1 "abc" (by rfl)

/-! Claim theorems: plausibility check. -/

theorem isAsciiGraphic_iff_spec (c : Char) : isAsciiGraphic c = true ↔ specPlausibleChar c := by
  simp only [isAsciiGraphic, decide_eq_true_eq, specPlausibleChar, isAsciiWhitespaceChar,
    isAsciiControlChar, not_or]
  omega

/-- Claim C8 (confirmed): `is_plausible_string` holds exactly of the
non-empty strings whose characters are all printable, non-whitespace,
non-control ASCII characters (equivalently, ASCII-graphic), and the four
concrete examples behave as stated. -/
theorem c8_plausibility :
    (∀ s : String, is_plausible_string s = true ↔
        (s ≠ "" ∧ ∀ c ∈ s.toList, specPlausibleChar c)) ∧
      is_plausible_string "user@host" = true ∧
      is_plausible_string "" = false ∧
      is_plausible_string "a b" = false ∧
      is_plausible_string "a\tb" = false := by
  refine ⟨?_, by decide, by decide, by decide, by decide⟩
  intro s
  have hs : s.toList.isEmpty = false ↔ s ≠ "" := by
    cases s with
    | mk data =>
      cases data with
      | nil => simp [List.isEmpty]
      | cons c cs => simp [List.isEmpty, String.ext_iff]
  rw [is_plausible_string, Bool.and_eq_true, Bool.not_eq_true', List.all_eq_true, hs]
  constructor
  · rintro ⟨h1, h2⟩
    exact ⟨h1, fun c hc => (isAsciiGraphic_iff_spec c).mp (h2 c hc)⟩
  · rintro ⟨h1, h2⟩
    exact ⟨h1, fun c hc => (isAsciiGraphic_iff_spec c).mpr (h2 c hc)⟩

/-- Witness for the C8 theorem: its characterization applied to a concrete
string. -/
theorem c8_witness : is_plausible_string "xy" = true :=
  (c8_plausibility.1 "xy").mpr (by decide)

/-! Claim theorems: privilege dropper. -/

/-- Claim C6 (confirmed): whenever the target user id is the superuser id,
`drop_privileges` fails with the cannot-drop-to-superuser error and its
trace of identity-changing system calls is empty — no group membership,
group id or user id has been touched, whatever the other inputs are. -/
theorem c6_refuse_superuser (oldUid oldGid newGid : Nat) (os : OsOracle) :
    drop_privileges oldUid oldGid 0 newGid os =
      (DropOutcome.exitCannotDropToSuperuser, []) := by
  simp [drop_privileges]

/-- Claim C2 (confirmed): after the three drop calls succeed, (a) whenever
the target gid differs from the original effective gid the code issues the
probe `setresgid(old, old, old)`, and if that probe succeeds the run ends
in the fatal group-regain abort; (b) symmetrically, whenever the target
uid differs from the original effective uid (and the group probe, if any,
failed as it should), the code issues `setresuid(old, old, old)` and
aborts fatally if it succeeds. -/
theorem c2_verification_probes (oldUid oldGid newUid newGid : Nat) (os : OsOracle)
    (hroot : newUid ≠ 0) (h1 : os.setgroupsOk = true) (h2 : os.setresgidOk = true)
    (h3 : os.setresuidOk = true) :
    ((newGid ≠ oldGid →
        Syscall.setresgid oldGid oldGid oldGid ∈
            (drop_privileges oldUid oldGid newUid newGid os).2 ∧
          (os.regainGidOk = true →
            (drop_privileges oldUid oldGid newUid newGid os).1 =
              DropOutcome.exitGidRegainSucceeded)) ∧
      (newUid ≠ oldUid → (newGid = oldGid ∨ os.regainGidOk = false) →
        Syscall.setresuid oldUid oldUid oldUid ∈
            (drop_privileges oldUid oldGid newUid newGid os).2 ∧
          (os.regainUidOk = true →
            (drop_privileges oldUid oldGid newUid newGid os).1 =
              DropOutcome.exitUidRegainSucceeded))) := by
  by_cases hgid : newGid = oldGid <;> by_cases huid : newUid = oldUid <;>
    by_cases hrg : os.regainGidOk = true <;> by_cases hru : os.regainUidOk = true <;>
      simp_all [drop_privileges]

/-- Witness for the C2 theorem: a concrete drop in which the group-regain
probe unexpectedly succeeds, so the run aborts with the fatal error. -/
theorem c2_witness :
    Syscall.setresgid 0 0 0 ∈ (drop_privileges 0 0 1000 1000 osRegainGid).2 ∧
      (drop_privileges 0 0 1000 1000 osRegainGid).1 = DropOutcome.exitGidRegainSucceeded := by
  have h := (c2_verification_probes 0 0 1000 1000 osRegainGid (by decide) rfl rfl rfl).1
    (by decide)
  exact ⟨h.1, h.2 rfl⟩

/-! Claim theorems: orchestration order of `main`. -/

theorem mainRest_events (w : MainWorld) (config : Config) (ev : List MainEvent) :
    ∃ t, (mainRest w config ev).2 = ev ++ t := by
  unfold mainRest
  cases hA : is_plausible_string (w.senderArg.getD w.currentUser) <;>
    cases hB : is_plausible_string (w.toArg.getD config.userName) <;>
      simp only [hA, hB] <;>
        repeat' split
  all_goals simp_all

theorem mainRest_cases (w : MainWorld) (config : Config) (ev : List MainEvent) :
    (∃ e, mainRest w config ev = (.exitPathError e, ev)) ∨
      ∀ e, (mainRest w config ev).1 ≠ MainOutcome.exitPathError e := by
  unfold mainRest
  cases hA : is_plausible_string (w.senderArg.getD w.currentUser) <;>
    cases hB : is_plausible_string (w.toArg.getD config.userName) <;>
      simp only [hA, hB] <;>
        repeat' split
  all_goals first
    | exact Or.inl ⟨_, rfl⟩
    | exact Or.inr fun e => by simp

theorem mainRun_drop_shape (w : MainWorld) (hdrop : w.shouldDropPrivs = true) :
    ((mainRun w).2 = [] ∧ ∀ e, (mainRun w).1 ≠ MainOutcome.exitPathError e) ∨
      ∃ config, mainRun w = mainRest w config [MainEvent.droppedPrivileges] := by
  unfold mainRun
  simp only [hdrop]
  repeat' split
  all_goals first
    | exact Or.inr ⟨_, rfl⟩
    | exact Or.inl ⟨rfl, fun e => by simp⟩
    | simp_all

/-- Claim C1, counterexample: a run with privilege dropping enabled, a
fully successful drop and a relative (malformed) mailbox path exits with
the path error while the milestone list already records the completed
privilege drop — the path is validated only after privileges are dropped,
so the invocation does not fail "while the process still holds its
original pre-drop identity". -/
theorem c1_counterexample :
    mainRun worldBadPath =
      (MainOutcome.exitPathError MaildirPathError.pathNotAbsolute,
        [MainEvent.droppedPrivileges]) := by
  decide

/-- Claim C1 (amended): in every privilege-dropping invocation, the
privilege drop comes first: whenever path validation is reached its
milestone is preceded by the completed drop (the drop is the first
milestone), and whenever the invocation fails with a path error the
milestone list is exactly the completed privilege drop — the mailbox path
is never validated before the privileges are dropped. -/
theorem c1_drop_before_validate (w : MainWorld) (hdrop : w.shouldDropPrivs = true) :
    (MainEvent.validatedPath ∈ (mainRun w).2 →
        (mainRun w).2.head? = some MainEvent.droppedPrivileges) ∧
      ∀ e, (mainRun w).1 = MainOutcome.exitPathError e →
        (mainRun w).2 = [MainEvent.droppedPrivileges] := by
  rcases mainRun_drop_shape w hdrop with ⟨h2, hne⟩ | ⟨config, heq⟩
  · constructor
    · intro hmem
      rw [h2] at hmem
      simp at hmem
    · intro e he
      exact absurd he (hne e)
  · constructor
    · intro _
      rw [heq]
      obtain ⟨t, ht⟩ := mainRest_events w config [.droppedPrivileges]
      rw [ht]
      rfl
    · intro e he
      rw [heq] at he ⊢
      rcases mainRest_cases w config [.droppedPrivileges] with ⟨e2, hec⟩ | hno
      · rw [hec]
      · exact absurd he (hno e)

/-- Witness for the amended C1 theorem: a run identical to the
counterexample's but with a well-formed mailbox path reaches path
validation, and its first milestone is the completed privilege drop. -/
theorem c1_witness : (mainRun worldGoodPath).2.head? = some MainEvent.droppedPrivileges :=
  (c1_drop_before_validate worldGoodPath rfl).1 (by decide)
